import Mathlib

/-!
# BirdRide — Route-Proximity Observation Aggregator, shallow embedding

This file embeds the algorithmic core of the BirdRide repository:

* the `GET /api/birds` handler of the Express server (species merge over
  notable-mode and recent-mode eBird query results, deduplication by
  `speciesCode + subId`, rarity classification, final per-species sort),
* `sampleCoordinates` (fixed-stride path sampler),
* `getMinDistanceToRoute` / `pointToSegmentDistance` and the distance
  filter of `applyFilters` (state-management module),
* the issue/await order of the handler's outbound queries.

Modelling conventions:

* eBird timestamps (`obsDt`) are strings of the fixed shape
  `YYYY-MM-DD HH:mm`; on that shape JavaScript string comparison
  (`bird.obsDt > existing.obsDt`) and `Date` comparison (the sort
  comparator) both agree with chronological order, so timestamps are
  embedded as naturals.
* JavaScript numbers appearing in geometric formulas are embedded as
  rationals; `bird.howMany` is `Option ℤ` (`none` = absent/null) and the
  read-time default `bird.howMany || 1` maps `none` and `0` to `1`.
* Network results are oracle inputs: each per-sample-point query result
  is `Option (List Obs)`, `none` standing for a failed/rejected/non-ok
  query whose contribution the handler skips.
-/

namespace BirdRide

/-- A raw eBird observation as consumed by the `/api/birds` handler:
species identity, coordinate, timestamp, optional count, location label,
checklist token `subId` and the `obsReviewed` flag. -/
structure Obs where
  speciesCode : String
  comName : String
  sciName : String
  lat : ℚ
  lng : ℚ
  obsDt : ℕ
  howMany : Option ℤ
  locName : String
  subId : String
  obsReviewed : Bool
deriving DecidableEq

/-- The per-report record pushed on an aggregate's `sightings` list
(source: the `sighting` object literal built in both merge branches). -/
structure Sighting where
  obsDt : ℕ
  howMany : ℤ
  locName : String
  subId : String
  lat : ℚ
  lng : ℚ
deriving DecidableEq

/-- A per-species aggregate as stored in the handler's `allBirds` map:
species identity, rarity string, primary display fields and the list of
all constituent sightings. -/
structure Agg where
  speciesCode : String
  comName : String
  sciName : String
  rarity : String
  lat : ℚ
  lng : ℚ
  obsDt : ℕ
  howMany : ℤ
  locName : String
  subId : String
  sightings : List Sighting
deriving DecidableEq

/-- JavaScript `bird.howMany || 1`: the `||` operator replaces the falsy values
`undefined`/`null`/`0` by the default `1`. -/
def defaultCount : Option ℤ → ℤ
  | none => 1
  | some n => if n = 0 then 1 else n

/-- The `sighting` object literal (lines building `{ obsDt, howMany: bird.howMany || 1, locName, subId, lat, lng }`). -/
def mkSighting (o : Obs) : Sighting :=
  { obsDt := o.obsDt
    howMany := defaultCount o.howMany
    locName := o.locName
    subId := o.subId
    lat := o.lat
    lng := o.lng }

/-- The dedup key `` `${bird.speciesCode}-${bird.subId}` `` tracked in
`seenSightings`. -/
def sightingKey (o : Obs) : String × String := (o.speciesCode, o.subId)

/-- The handler's mutable request-scoped state: the `notableSpecies` set,
the `seenSightings` set, and the `allBirds` insertion-ordered map
(embedded as a code-keyed list). -/
structure BirdsState where
  notableSpecies : List String
  seenSightings : List (String × String)
  allBirds : List Agg
deriving DecidableEq

/-- Addition (`Set.prototype.add`) on the `notableSpecies` set. -/
def addSet (s : List String) (c : String) : List String :=
  if c ∈ s then s else s ++ [c]

/-- Lookup (`allBirds.get(code)` / `allBirds.has(code)`) on the insertion-ordered map. -/
def findAgg (l : List Agg) (c : String) : Option Agg :=
  l.find? (fun a => decide (a.speciesCode = c))

/-- In-place mutation of the map entry for `c` (the JavaScript code
mutates the aggregate object returned by `allBirds.get`). -/
def updateAgg (l : List Agg) (c : String) (f : Agg → Agg) : List Agg :=
  l.map (fun a => if a.speciesCode = c then f a else a)

/-- Aggregate creation in the notable branch: `rarity: 'rare'` always,
primary fields from this observation, sighting list `[sighting]`. -/
def newNotableAgg (o : Obs) : Agg :=
  { speciesCode := o.speciesCode
    comName := o.comName
    sciName := o.sciName
    rarity := "rare"
    lat := o.lat
    lng := o.lng
    obsDt := o.obsDt
    howMany := defaultCount o.howMany
    locName := o.locName
    subId := o.subId
    sightings := [mkSighting o] }

/-- Aggregate creation in the recent branch:
`rarity: (notableSpecies.has(code) || bird.obsReviewed) ? 'rare' : 'common'`. -/
def newRecentAgg (ns : List String) (o : Obs) : Agg :=
  { speciesCode := o.speciesCode
    comName := o.comName
    sciName := o.sciName
    rarity := if o.speciesCode ∈ ns ∨ o.obsReviewed = true then "rare" else "common"
    lat := o.lat
    lng := o.lng
    obsDt := o.obsDt
    howMany := defaultCount o.howMany
    locName := o.locName
    subId := o.subId
    sightings := [mkSighting o] }

/-- The notable branch's existing-aggregate case: push the sighting and
force `rarity = 'rare'`; the primary fields are left untouched. -/
def appendNotable (o : Obs) (a : Agg) : Agg :=
  { a with sightings := a.sightings ++ [mkSighting o], rarity := "rare" }

/-- The recent branch's existing-aggregate case: push the sighting, then
replace the primary display fields when `bird.obsDt > existing.obsDt`. -/
def appendRecent (o : Obs) (a : Agg) : Agg :=
  let a1 : Agg := { a with sightings := a.sightings ++ [mkSighting o] }
  if a1.obsDt < o.obsDt then
    { a1 with
      obsDt := o.obsDt
      lat := o.lat
      lng := o.lng
      howMany := defaultCount o.howMany
      locName := o.locName
      subId := o.subId }
  else a1

/-- The shared dedup-then-merge skeleton of both branches: skip when the
key is in `seenSightings`, otherwise record the key and either create the
aggregate or merge into the existing one. -/
def ingest (st : BirdsState) (o : Obs) (mkNew : Agg) (onOld : Agg → Agg) : BirdsState :=
  if sightingKey o ∈ st.seenSightings then st
  else
    match findAgg st.allBirds o.speciesCode with
    | none =>
        { st with
          seenSightings := sightingKey o :: st.seenSightings
          allBirds := st.allBirds ++ [mkNew] }
    | some _ =>
        { st with
          seenSightings := sightingKey o :: st.seenSightings
          allBirds := updateAgg st.allBirds o.speciesCode onOld }

/-- One observation of a fulfilled notable-mode result: the species code
is added to `notableSpecies` first (even for duplicate sightings), then
the observation is folded in. -/
def processNotableObs (st : BirdsState) (o : Obs) : BirdsState :=
  let st1 : BirdsState := { st with notableSpecies := addSet st.notableSpecies o.speciesCode }
  ingest st1 o (newNotableAgg o) (appendNotable o)

/-- One observation of a successful recent-mode response. -/
def processRecentObs (st : BirdsState) (o : Obs) : BirdsState :=
  ingest st o (newRecentAgg st.notableSpecies o) (appendRecent o)

/-- The empty request-scoped state (`new Map()`, `new Set()`, `new Set()`). -/
def initState : BirdsState := ⟨[], [], []⟩

/-- Folding a list of per-sample-point query results: failed queries
(`none`, i.e. rejected promises / non-ok responses / thrown errors)
contribute nothing; fulfilled ones are folded observation by observation. -/
def runQueryResults (f : BirdsState → Obs → BirdsState) (st : BirdsState)
    (results : List (Option (List Obs))) : BirdsState :=
  results.foldl
    (fun s r =>
      match r with
      | none => s
      | some birds => birds.foldl f s)
    st

/-- The final per-species sort
`bird.sightings.sort((a, b) => new Date(b.obsDt) - new Date(a.obsDt))`:
a stable sort putting the most recent sighting first (ECMAScript
`Array.prototype.sort` is required to be stable; a stable insertion sort
realizes the same observable contract). -/
def sortSightings (l : List Sighting) : List Sighting :=
  l.insertionSort (fun a b => b.obsDt ≤ a.obsDt)

/-- Sort one aggregate's sighting list. -/
def sortStep (a : Agg) : Agg := { a with sightings := sortSightings a.sightings }

/-- The `/api/birds` merge: notable results first (building the
`notableSpecies` set and seeding aggregates), then recent results, then
the per-aggregate sort; the response body is `Array.from(allBirds.values())`. -/
def birdsHandler (notableResults recentResults : List (Option (List Obs))) : List Agg :=
  let st1 := runQueryResults processNotableObs initState notableResults
  let st2 := runQueryResults processRecentObs st1 recentResults
  st2.allBirds.map sortStep

/-- The full `/api/birds` endpoint result: a 400 error for an empty
coordinate list, otherwise the merged aggregate array (always status 200,
with no failure metadata of any kind). -/
def apiBirds (coords : List (ℚ × ℚ)) (notableResults recentResults : List (Option (List Obs))) :
    Except String (List Agg) :=
  if coords.isEmpty then Except.error "No coordinates provided"
  else Except.ok (birdsHandler notableResults recentResults)

/-- The recent-branch merge fold (handler lines folding one observation
stream against a fixed notable-species set), as referenced by the
order-independence claim. -/
def mergeRecentOut (ns : List String) (l : List Obs) : List Agg :=
  ((l.foldl processRecentObs ⟨ns, [], []⟩).allBirds).map sortStep

/-- The observations of the fulfilled results, in iteration order. -/
def fulfilledObs (results : List (Option (List Obs))) : List Obs :=
  results.flatMap (fun r => r.getD [])

/-- The species codes collected into `notableSpecies` (every observation
of every fulfilled notable result contributes its code). -/
def notableCodes (notableResults : List (Option (List Obs))) : List String :=
  (fulfilledObs notableResults).map (fun o => o.speciesCode)

/-- The first observation of species `c` in a fold stream: the
observation that creates the aggregate for `c`. -/
def creator (l : List Obs) (c : String) : Option Obs :=
  l.find? (fun o => decide (o.speciesCode = c))

/-- All dedup keys retained across the aggregates: each stored sighting
paired with its owner's species code. -/
def aggKeys (l : List Agg) : List (String × String) :=
  l.flatMap (fun a => a.sightings.map (fun s => (a.speciesCode, s.subId)))

/-! ## Path sampler (`sampleCoordinates`, server and `birdService.js`) -/

/-- The sampling loop
`for (let i = 0; i < coords.length; i += step) { sampled.push(coords[i]); if (sampled.length >= maxPoints) break; }`.
The first argument is the remaining capacity `maxPoints - sampled.length`;
the loop pushes `coords[i]`, then stops when the capacity after the push
is exhausted (which also covers a non-positive `maxPoints`). -/
def sampleGo (coords : List α) (step : ℕ) : ℕ → ℕ → List α
  | 0, i => if h : i < coords.length then [coords.get ⟨i, h⟩] else []
  | 1, i => if h : i < coords.length then [coords.get ⟨i, h⟩] else []
  | r + 2, i =>
      if h : i < coords.length then
        coords.get ⟨i, h⟩ :: sampleGo coords step (r + 1) (i + step)
      else []

/-- The sampler `sampleCoordinates(coords, maxPoints)`: identity when the path is
short enough, otherwise fixed-stride decimation with
`step = Math.floor(coords.length / maxPoints)`. -/
def sampleCoordinates (coords : List α) (maxPoints : ℕ) : List α :=
  if coords.length ≤ maxPoints then coords
  else sampleGo coords (coords.length / maxPoints) maxPoints 0

/-! ## Proximity filter (state module: `getMinDistanceToRoute`,
`pointToSegmentDistance`, `applyFilters` distance step)

The Haversine great-circle distance is transcendental (floating-point
`sin`/`cos`/`atan2`); the geometric claims concern only the structure
built on top of the metric, so the metric is a parameter `hav` taking the
two points `(px, py)` and `(qx, qy)`. The planar projection arithmetic of
`pointToSegmentDistance` is embedded exactly, over rationals. -/

/-- The function `pointToSegmentDistance(px, py, x1, y1, x2, y2)`: planar projection
of the point onto the segment's line, parameter clamped to `[0,1]`,
`hav` distance to the clamped projection; a degenerate segment falls back
to the `hav` distance to its endpoint. -/
def pointToSegmentDistance (hav : ℚ → ℚ → ℚ → ℚ → ℚ)
    (px py x1 y1 x2 y2 : ℚ) : ℚ :=
  let dx := x2 - x1
  let dy := y2 - y1
  if dx = 0 ∧ dy = 0 then hav px py x1 y1
  else
    let t := max 0 (min 1 (((px - x1) * dx + (py - y1) * dy) / (dx * dx + dy * dy)))
    hav px py (x1 + t * dx) (y1 + t * dy)

/-- Running minimum against an `Infinity` starting value
(`none` plays `Infinity`; `if (distance < minDistance) minDistance = distance`). -/
def minUpd : Option ℚ → ℚ → Option ℚ
  | none, d => some d
  | some m, d => if d < m then some d else some m

/-- The consecutive coordinate pairs `(routeCoords[i], routeCoords[i+1])`
for `i < routeCoords.length - 1`. -/
def segPairs (l : List (ℚ × ℚ)) : List ((ℚ × ℚ) × (ℚ × ℚ)) :=
  l.zip l.tail

/-- The function `getMinDistanceToRoute(lat, lng, routeCoords)`: minimum over every
segment distance, then over every vertex distance; `none` is the untouched
`Infinity` (empty route). -/
def getMinDistanceToRoute (hav : ℚ → ℚ → ℚ → ℚ → ℚ)
    (lat lng : ℚ) (routeCoords : List (ℚ × ℚ)) : Option ℚ :=
  let afterSegs :=
    (segPairs routeCoords).foldl
      (fun m pq => minUpd m (pointToSegmentDistance hav lat lng pq.1.1 pq.1.2 pq.2.1 pq.2.2))
      none
  routeCoords.foldl (fun m p => minUpd m (hav lat lng p.1 p.2)) afterSegs

/-- The candidate distances the specification describes: the
point-to-segment distance for every consecutive pair, and the point-to-
vertex distance for every coordinate. -/
def routeDistances (hav : ℚ → ℚ → ℚ → ℚ → ℚ)
    (lat lng : ℚ) (routeCoords : List (ℚ × ℚ)) : List ℚ :=
  (segPairs routeCoords).map
      (fun pq => pointToSegmentDistance hav lat lng pq.1.1 pq.1.2 pq.2.1 pq.2.2)
    ++ routeCoords.map (fun p => hav lat lng p.1 p.2)

/-- The filter predicate of `applyFilters`:
`getMinDistanceToRoute(bird.lat, bird.lng, routeCoords) <= distanceFilter`
(`Infinity <= threshold` is false for a finite threshold). -/
def keepBird (hav : ℚ → ℚ → ℚ → ℚ → ℚ) (thr : ℚ) (routeCoords : List (ℚ × ℚ)) (b : Agg) : Bool :=
  match getMinDistanceToRoute hav b.lat b.lng routeCoords with
  | some d => decide (d ≤ thr)
  | none => false

/-- The distance-filtering step of `applyFilters`: applied only when the
route has at least one coordinate. -/
def distanceFilterStep (hav : ℚ → ℚ → ℚ → ℚ → ℚ) (thr : ℚ)
    (routeCoords : List (ℚ × ℚ)) (birds : List Agg) : List Agg :=
  if 0 < routeCoords.length then birds.filter (keepBird hav thr routeCoords) else birds

/-! ## Outbound query schedule of the handler

The handler issues all notable queries at once
(`samplePoints.map(([lat, lng]) => fetchNotableBirds(...))`), awaits them
jointly (`await Promise.allSettled(notablePromises)`), and only then runs
`for (const [lat, lng] of samplePoints) { ... await fetch(recentUrl) ... }`,
awaiting each recent query inside the loop body before the next iteration
issues the next one. The trace below records that order of issue/await
events for `n` sample points. -/

/-- One scheduling event of the `/api/birds` handler. -/
inductive QueryEvent where
  | issueNotable (i : ℕ)
  | settleNotableAll
  | issueRecent (i : ℕ)
  | settleRecent (i : ℕ)
deriving DecidableEq

/-- Whether an event is the issuing of a query (as opposed to awaiting one). -/
def QueryEvent.isIssue : QueryEvent → Bool
  | .issueNotable _ => true
  | .issueRecent _ => true
  | _ => false

/-- The issue/await order of the handler's outbound queries for `n`
sample points, read off the handler's control flow. -/
def birdsQueryTrace (n : ℕ) : List QueryEvent :=
  (List.range n).map QueryEvent.issueNotable
    ++ [QueryEvent.settleNotableAll]
    ++ (List.range n).flatMap (fun i => [QueryEvent.issueRecent i, QueryEvent.settleRecent i])

/-- Full concurrency ("no query waits for another query to complete
before being issued"): once an await event has happened, no further issue
event occurs. -/
def fullyConcurrent (t : List QueryEvent) : Prop :=
  t.Pairwise (fun a b => b.isIssue = true → a.isIssue = true)

/-! ## Derived notions used by the statements -/

/-- Some aggregate for species `c` is present (`allBirds.has(c)`). -/
def speciesMem (l : List Agg) (c : String) : Prop :=
  ∃ a ∈ l, a.speciesCode = c

/-- The request-scoped well-formedness of the merge state: `seenSightings`
contains exactly the keys of the retained sightings, species codes are
unique across the map, and no dedup key is stored twice. -/
structure MergeInv (st : BirdsState) : Prop where
  seen_iff : ∀ k, k ∈ st.seenSightings ↔ k ∈ aggKeys st.allBirds
  codes_nodup : (st.allBirds.map (fun a => a.speciesCode)).Nodup
  keys_nodup : (aggKeys st.allBirds).Nodup

/-- A merge step that preserves the state well-formedness and evolves the
retained keys/species exactly by the processed observation. -/
def goodStep (f : BirdsState → Obs → BirdsState) : Prop :=
  ∀ st o, MergeInv st →
    MergeInv (f st o) ∧
    (∀ k, k ∈ aggKeys (f st o).allBirds ↔ k ∈ aggKeys st.allBirds ∨ k = sightingKey o) ∧
    (∀ c, speciesMem (f st o).allBirds c ↔ speciesMem st.allBirds c ∨ c = o.speciesCode)

/-- Every stored aggregate surfaces as primary timestamp the maximum of
its sightings' timestamps. -/
def PrimaryMax (l : List Agg) : Prop :=
  ∀ a ∈ l, (a.sightings.map (fun s => s.obsDt)).maximum = WithBot.some a.obsDt

/-- A concrete observation with the given species code, checklist token,
timestamp and reviewed flag (remaining fields neutral), used for the
concrete evaluations. -/
def obsCE (c t : String) (dt : ℕ) (rev : Bool) : Obs :=
  { speciesCode := c
    comName := ""
    sciName := ""
    lat := 0
    lng := 0
    obsDt := dt
    howMany := none
    locName := ""
    subId := t
    obsReviewed := rev }

/-- A throwaway aggregate for total list accessors in concrete statements. -/
def dummyAgg : Agg := newNotableAgg (obsCE "d" "d" 0 false)

/-- A throwaway sighting for total list accessors in concrete statements. -/
def dummySighting : Sighting := mkSighting (obsCE "d" "d" 0 false)

/-- First counterexample observation list: same species, distinct tokens,
the later (more recent) report second. -/
def cexNotablePair : List Obs := [obsCE "x" "A" 1 false, obsCE "x" "B" 5 false]

/-- Observation pair where only the second report is reviewed. -/
def cexReviewedSecond : List Obs := [obsCE "x" "A" 1 false, obsCE "x" "B" 2 true]

/-- The same pair with the reviewed report first. -/
def cexReviewedFirst : List Obs := [obsCE "x" "B" 2 true, obsCE "x" "A" 1 false]

/-- A trivial concrete metric used to instantiate the metric parameter in
concrete evaluations. -/
def hav0 : ℚ → ℚ → ℚ → ℚ → ℚ := fun _ _ _ _ => 0

/-! ## Merge-state machinery -/

theorem mem_addSet {s : List String} {c x : String} :
    x ∈ addSet s c ↔ x ∈ s ∨ x = c := by
  unfold addSet
  by_cases h : c ∈ s
  · simp only [if_pos h]
    constructor
    · exact Or.inl
    · rintro (hx | rfl)
      · exact hx
      · exact h
  · simp [if_neg h]

theorem aggKeys_append (l1 l2 : List Agg) :
    aggKeys (l1 ++ l2) = aggKeys l1 ++ aggKeys l2 := by
  unfold aggKeys
  exact List.flatMap_append l1 l2 _

theorem aggKeys_cons (a : Agg) (l : List Agg) :
    aggKeys (a :: l) = a.sightings.map (fun s => (a.speciesCode, s.subId)) ++ aggKeys l := rfl

theorem speciesMem_of_mem_aggKeys {l : List Agg} {k : String × String}
    (h : k ∈ aggKeys l) : speciesMem l k.1 := by
  unfold aggKeys at h
  rcases List.mem_flatMap.mp h with ⟨a, ha, hk⟩
  rcases List.mem_map.mp hk with ⟨s, _, rfl⟩
  exact ⟨a, ha, rfl⟩

theorem findAgg_eq_none_iff {l : List Agg} {c : String} :
    findAgg l c = none ↔ ¬ speciesMem l c := by
  unfold findAgg speciesMem
  rw [List.find?_eq_none]
  constructor
  · rintro h ⟨a, ha, hc⟩
    exact h a ha (by simp [hc])
  · intro h a ha hc
    exact h ⟨a, ha, by simpa using hc⟩

theorem findAgg_some_mem {l : List Agg} {c : String} {a : Agg}
    (h : findAgg l c = some a) : a ∈ l ∧ a.speciesCode = c := by
  refine ⟨List.mem_of_find?_eq_some h, ?_⟩
  have := List.find?_some h
  simpa using this

/-- When no element of `l` has code `c`, the in-place update is the identity. -/
theorem updateAgg_id {l : List Agg} {c : String} (f : Agg → Agg)
    (h : ∀ x ∈ l, x.speciesCode ≠ c) : updateAgg l c f = l := by
  unfold updateAgg
  induction l with
  | nil => rfl
  | cons a t ih =>
      simp only [List.map_cons, if_neg (h a (List.mem_cons_self a t))]
      rw [ih (fun x hx => h x (List.mem_cons_of_mem a hx))]

/-- Decomposition of a successful lookup-and-update against a map with
unique species codes: exactly the found aggregate is rewritten. -/
theorem updateAgg_decomp {l : List Agg} {c : String} {a0 : Agg}
    (hfind : findAgg l c = some a0)
    (hnd : (l.map (fun a => a.speciesCode)).Nodup) (f : Agg → Agg) :
    ∃ l1 l2, l = l1 ++ a0 :: l2 ∧ a0.speciesCode = c ∧
      (∀ x ∈ l1, x.speciesCode ≠ c) ∧ (∀ x ∈ l2, x.speciesCode ≠ c) ∧
      updateAgg l c f = l1 ++ f a0 :: l2 := by
  induction l with
  | nil => simp [findAgg] at hfind
  | cons a t ih =>
      by_cases hc : a.speciesCode = c
      · have ha0 : a0 = a := by
          unfold findAgg at hfind
          rw [List.find?_cons_of_pos _ (by simpa using hc)] at hfind
          exact (Option.some_inj.mp hfind).symm
        subst ha0
        have hnotin : ∀ x ∈ t, x.speciesCode ≠ c := by
          intro x hx hxc
          have : a0.speciesCode ∈ t.map (fun a => a.speciesCode) :=
            List.mem_map.mpr ⟨x, hx, by rw [hxc, hc]⟩
          exact (List.nodup_cons.mp hnd).1 this
        refine ⟨[], t, by simp, hc, by simp, hnotin, ?_⟩
        unfold updateAgg
        simp only [List.map_cons, if_pos hc, List.nil_append]
        have := updateAgg_id f hnotin
        unfold updateAgg at this
        rw [this]
      · have hfind' : findAgg t c = some a0 := by
          unfold findAgg at hfind ⊢
          rwa [List.find?_cons_of_neg _ (by simpa using hc)] at hfind
        rcases ih hfind' (List.nodup_cons.mp hnd).2 with ⟨l1, l2, heq, ha0c, h1, h2, hupd⟩
        refine ⟨a :: l1, l2, by rw [heq]; rfl, ha0c, ?_, h2, ?_⟩
        · intro x hx
          rcases List.mem_cons.mp hx with rfl | hx'
          · exact hc
          · exact h1 x hx'
        · unfold updateAgg
          simp only [List.map_cons, if_neg hc]
          unfold updateAgg at hupd
          rw [hupd]
          rfl

theorem updateAgg_codes {l : List Agg} {c : String} {f : Agg → Agg}
    (hf : ∀ a, (f a).speciesCode = a.speciesCode) :
    (updateAgg l c f).map (fun a => a.speciesCode) = l.map (fun a => a.speciesCode) := by
  unfold updateAgg
  rw [List.map_map]
  refine List.map_congr_left ?_
  intro a _
  by_cases h : a.speciesCode = c <;> simp [h, hf]

theorem nodup_append_singleton {α : Type _} {l : List α} {x : α}
    (hl : l.Nodup) (hx : x ∉ l) : (l ++ [x]).Nodup := by
  rw [List.nodup_append]
  exact ⟨hl, List.nodup_singleton x, by simpa using hx⟩

theorem speciesMem_iff {l : List Agg} {c : String} :
    speciesMem l c ↔ c ∈ l.map (fun a => a.speciesCode) := by
  unfold speciesMem
  exact (List.mem_map).symm

theorem ingest_notableSpecies (st : BirdsState) (o : Obs) (mkNew : Agg) (onOld : Agg → Agg) :
    (ingest st o mkNew onOld).notableSpecies = st.notableSpecies := by
  unfold ingest
  by_cases h : sightingKey o ∈ st.seenSightings
  · rw [if_pos h]
  · rw [if_neg h]
    cases findAgg st.allBirds o.speciesCode <;> rfl

/-- The common step lemma for both merge branches: one `ingest` call
preserves the state well-formedness, adds exactly the observation's dedup
key to the retained keys (when unseen), and adds exactly its species. -/
theorem ingest_step {st : BirdsState} (o : Obs) {mkNew : Agg} {onOld : Agg → Agg}
    (hNew1 : mkNew.speciesCode = o.speciesCode)
    (hNew2 : mkNew.sightings = [mkSighting o])
    (hOld1 : ∀ a, (onOld a).speciesCode = a.speciesCode)
    (hOld2 : ∀ a, (onOld a).sightings = a.sightings ++ [mkSighting o])
    (hinv : MergeInv st) :
    MergeInv (ingest st o mkNew onOld) ∧
    (∀ k, k ∈ aggKeys (ingest st o mkNew onOld).allBirds ↔
      k ∈ aggKeys st.allBirds ∨ k = sightingKey o) ∧
    (∀ c, speciesMem (ingest st o mkNew onOld).allBirds c ↔
      speciesMem st.allBirds c ∨ c = o.speciesCode) := by
  by_cases hseen : sightingKey o ∈ st.seenSightings
  · have hkey : sightingKey o ∈ aggKeys st.allBirds := (hinv.seen_iff _).mp hseen
    have hsp : speciesMem st.allBirds o.speciesCode := speciesMem_of_mem_aggKeys hkey
    have hst : ingest st o mkNew onOld = st := by unfold ingest; rw [if_pos hseen]
    rw [hst]
    refine ⟨hinv, fun k => ⟨Or.inl, ?_⟩, fun c => ⟨Or.inl, ?_⟩⟩
    · rintro (h | rfl)
      · exact h
      · exact hkey
    · rintro (h | rfl)
      · exact h
      · exact hsp
  · have hkeynotin : sightingKey o ∉ aggKeys st.allBirds :=
      fun h => hseen ((hinv.seen_iff _).mpr h)
    cases hfind : findAgg st.allBirds o.speciesCode with
    | none =>
        have hspnot : ¬ speciesMem st.allBirds o.speciesCode := findAgg_eq_none_iff.mp hfind
        have hst : ingest st o mkNew onOld =
            { st with
              seenSightings := sightingKey o :: st.seenSightings
              allBirds := st.allBirds ++ [mkNew] } := by
          unfold ingest; rw [if_neg hseen, hfind]
        have hkeys : aggKeys (st.allBirds ++ [mkNew]) = aggKeys st.allBirds ++ [sightingKey o] := by
          rw [aggKeys_append]
          congr 1
          rw [aggKeys_cons, hNew1, hNew2]
          rfl
        have hcodes : (st.allBirds ++ [mkNew]).map (fun a => a.speciesCode) =
            st.allBirds.map (fun a => a.speciesCode) ++ [o.speciesCode] := by
          rw [List.map_append, List.map_singleton, hNew1]
        have hcodenotin : o.speciesCode ∉ st.allBirds.map (fun a => a.speciesCode) :=
          fun h => hspnot (speciesMem_iff.mpr h)
        rw [hst]
        refine ⟨⟨?_, ?_, ?_⟩, ?_, ?_⟩
        · intro k
          simp only [hkeys, List.mem_cons, List.mem_append, List.mem_singleton]
          rw [hinv.seen_iff k]
          tauto
        · simp only [hcodes]
          exact nodup_append_singleton hinv.codes_nodup hcodenotin
        · simp only [hkeys]
          exact nodup_append_singleton hinv.keys_nodup hkeynotin
        · intro k
          simp only [hkeys, List.mem_append, List.mem_singleton]
        · intro c
          simp only [speciesMem_iff, hcodes, List.mem_append, List.mem_singleton]
    | some a0 =>
        rcases updateAgg_decomp hfind hinv.codes_nodup onOld with
          ⟨l1, l2, heq, ha0c, _h1, _h2, hupd⟩
        have hst : ingest st o mkNew onOld =
            { st with
              seenSightings := sightingKey o :: st.seenSightings
              allBirds := updateAgg st.allBirds o.speciesCode onOld } := by
          unfold ingest; rw [if_neg hseen, hfind]
        have hsp0 : speciesMem st.allBirds o.speciesCode :=
          ⟨a0, (findAgg_some_mem hfind).1, (findAgg_some_mem hfind).2⟩
        have hkeysold : aggKeys st.allBirds =
            (aggKeys l1 ++ a0.sightings.map (fun s => (a0.speciesCode, s.subId))) ++ aggKeys l2 := by
          rw [heq, aggKeys_append, aggKeys_cons, List.append_assoc]
        have hkeysnew : aggKeys (updateAgg st.allBirds o.speciesCode onOld) =
            (aggKeys l1 ++ a0.sightings.map (fun s => (a0.speciesCode, s.subId))) ++
              sightingKey o :: aggKeys l2 := by
          rw [hupd, aggKeys_append, aggKeys_cons, hOld1, hOld2, List.map_append]
          have : (sightingKey o) = (a0.speciesCode, (mkSighting o).subId) := by
            rw [ha0c]; rfl
          rw [List.append_assoc, List.append_assoc]
          congr 1
          congr 1
          rw [this]
          rfl
        have hperm : (aggKeys (updateAgg st.allBirds o.speciesCode onOld)).Perm
            (sightingKey o :: aggKeys st.allBirds) := by
          rw [hkeysnew, hkeysold]
          exact List.perm_middle
        have hcodes := updateAgg_codes (l := st.allBirds) (c := o.speciesCode) hOld1
        rw [hst]
        refine ⟨⟨?_, ?_, ?_⟩, ?_, ?_⟩
        · intro k
          rw [List.mem_cons, hinv.seen_iff k, hperm.mem_iff, List.mem_cons]
        · simp only [hcodes]
          exact hinv.codes_nodup
        · rw [hperm.nodup_iff]
          exact List.nodup_cons.mpr ⟨hkeynotin, hinv.keys_nodup⟩
        · intro k
          rw [hperm.mem_iff, List.mem_cons]
          tauto
        · intro c
          simp only [speciesMem_iff, hcodes]
          constructor
          · exact Or.inl
          · rintro (h | rfl)
            · exact h
            · exact speciesMem_iff.mp hsp0

theorem goodStep_processNotableObs : goodStep processNotableObs := by
  intro st o hinv
  have hinv1 : MergeInv { st with notableSpecies := addSet st.notableSpecies o.speciesCode } :=
    ⟨hinv.seen_iff, hinv.codes_nodup, hinv.keys_nodup⟩
  exact ingest_step o rfl rfl (fun a => rfl) (fun a => rfl) hinv1

theorem appendRecent_speciesCode (o : Obs) (a : Agg) :
    (appendRecent o a).speciesCode = a.speciesCode := by
  unfold appendRecent
  dsimp only
  split <;> rfl

theorem appendRecent_sightings (o : Obs) (a : Agg) :
    (appendRecent o a).sightings = a.sightings ++ [mkSighting o] := by
  unfold appendRecent
  dsimp only
  split <;> rfl

theorem appendRecent_rarity (o : Obs) (a : Agg) :
    (appendRecent o a).rarity = a.rarity := by
  unfold appendRecent
  dsimp only
  split <;> rfl

theorem goodStep_processRecentObs : goodStep processRecentObs := by
  intro st o hinv
  exact ingest_step o rfl rfl (appendRecent_speciesCode o) (appendRecent_sightings o) hinv

theorem goodStep_foldl {f : BirdsState → Obs → BirdsState} (hf : goodStep f) :
    ∀ (l : List Obs) (st : BirdsState), MergeInv st →
      MergeInv (l.foldl f st) ∧
      (∀ k, k ∈ aggKeys (l.foldl f st).allBirds ↔
        k ∈ aggKeys st.allBirds ∨ k ∈ l.map sightingKey) ∧
      (∀ c, speciesMem (l.foldl f st).allBirds c ↔
        speciesMem st.allBirds c ∨ c ∈ l.map (fun o => o.speciesCode)) := by
  intro l
  induction l with
  | nil =>
      intro st h
      refine ⟨h, fun k => ?_, fun c => ?_⟩ <;> simp
  | cons o t ih =>
      intro st h
      rcases hf st o h with ⟨h1, h2, h3⟩
      rcases ih (f st o) h1 with ⟨g1, g2, g3⟩
      refine ⟨g1, fun k => ?_, fun c => ?_⟩
      · rw [List.foldl_cons, g2 k, h2 k, List.map_cons, List.mem_cons]
        tauto
      · rw [List.foldl_cons, g3 c, h3 c, List.map_cons, List.mem_cons]
        tauto

theorem runQueryResults_cons_none (f : BirdsState → Obs → BirdsState) (st : BirdsState)
    (t : List (Option (List Obs))) :
    runQueryResults f st (none :: t) = runQueryResults f st t := rfl

theorem runQueryResults_cons_some (f : BirdsState → Obs → BirdsState) (st : BirdsState)
    (birds : List Obs) (t : List (Option (List Obs))) :
    runQueryResults f st (some birds :: t) = runQueryResults f (birds.foldl f st) t := rfl

theorem fulfilledObs_cons_none (t : List (Option (List Obs))) :
    fulfilledObs (none :: t) = fulfilledObs t := rfl

theorem fulfilledObs_cons_some (birds : List Obs) (t : List (Option (List Obs))) :
    fulfilledObs (some birds :: t) = birds ++ fulfilledObs t := rfl

/-- The nested loops over query results are the plain fold over the
concatenated fulfilled observation stream. -/
theorem runQueryResults_eq_foldl (f : BirdsState → Obs → BirdsState)
    (rs : List (Option (List Obs))) :
    ∀ st, runQueryResults f st rs = (fulfilledObs rs).foldl f st := by
  induction rs with
  | nil => intro st; rfl
  | cons r t ih =>
      intro st
      cases r with
      | none => rw [runQueryResults_cons_none, fulfilledObs_cons_none, ih st]
      | some birds =>
          rw [runQueryResults_cons_some, fulfilledObs_cons_some, List.foldl_append, ih]

theorem mergeInv_initState : MergeInv initState := by
  refine ⟨fun k => ?_, ?_, ?_⟩ <;> simp [initState, aggKeys]

theorem sortSightings_perm (l : List Sighting) : (sortSightings l).Perm l :=
  List.perm_insertionSort _ l

theorem aggKeys_map_sortStep (l : List Agg) :
    (aggKeys (l.map sortStep)).Perm (aggKeys l) := by
  induction l with
  | nil => exact List.Perm.refl _
  | cons a t ih =>
      rw [List.map_cons, aggKeys_cons, aggKeys_cons]
      exact ((sortSightings_perm a.sightings).map _).append ih

theorem speciesMem_map_sortStep (l : List Agg) (c : String) :
    speciesMem (l.map sortStep) c ↔ speciesMem l c := by
  rw [speciesMem_iff, speciesMem_iff, List.map_map]
  exact Iff.rfl

/-- The handler as the two plain folds followed by the per-species sort. -/
theorem birdsHandler_eq (nR rR : List (Option (List Obs))) :
    birdsHandler nR rR =
      (((fulfilledObs rR).foldl processRecentObs
          ((fulfilledObs nR).foldl processNotableObs initState)).allBirds).map sortStep := by
  unfold birdsHandler
  dsimp only
  rw [runQueryResults_eq_foldl, runQueryResults_eq_foldl]

theorem birdsHandler_keys (nR rR : List (Option (List Obs))) :
    ((aggKeys (birdsHandler nR rR)).Nodup) ∧
    (∀ k, k ∈ aggKeys (birdsHandler nR rR) ↔
      k ∈ (fulfilledObs nR ++ fulfilledObs rR).map sightingKey) := by
  have h1 := goodStep_foldl goodStep_processNotableObs (fulfilledObs nR) initState mergeInv_initState
  have h2 := goodStep_foldl goodStep_processRecentObs (fulfilledObs rR) _ h1.1
  have hperm := aggKeys_map_sortStep
    (((fulfilledObs rR).foldl processRecentObs
      ((fulfilledObs nR).foldl processNotableObs initState)).allBirds)
  rw [birdsHandler_eq]
  constructor
  · exact hperm.nodup_iff.mpr h2.1.keys_nodup
  · intro k
    rw [hperm.mem_iff, h2.2.1 k, h1.2.1 k]
    simp only [initState, aggKeys, List.flatMap_nil, List.not_mem_nil, false_or,
      List.map_append, List.mem_append]

/-- CLAIM C5 — Deduplication is idempotent under the compound key: across
both query modes, a `(species code, subId)` pair contributes exactly one
retained `SightingRecord` when it occurs in the input stream (however
often), and none otherwise. -/
theorem C5_dedup_idempotent (nR rR : List (Option (List Obs))) (k : String × String) :
    (aggKeys (birdsHandler nR rR)).countP (fun x => decide (x = k)) =
      if k ∈ (fulfilledObs nR ++ fulfilledObs rR).map sightingKey then 1 else 0 := by
  rcases birdsHandler_keys nR rR with ⟨hnd, hmem⟩
  by_cases hk : k ∈ (fulfilledObs nR ++ fulfilledObs rR).map sightingKey
  · rw [if_pos hk]
    show @List.count _ instBEqOfDecidableEq k (aggKeys (birdsHandler nR rR)) = 1
    exact List.count_eq_one_of_mem hnd ((hmem k).mpr hk)
  · rw [if_neg hk]
    rw [List.countP_eq_zero]
    intro x hx hxk
    exact hk ((hmem k).mp (by rwa [of_decide_eq_true hxk] at hx))

theorem mergeInv_recentInit (ns : List String) : MergeInv ⟨ns, [], []⟩ := by
  refine ⟨fun k => ?_, ?_, ?_⟩ <;> simp [aggKeys]

theorem mergeRecentOut_species (ns : List String) (l : List Obs) (c : String) :
    speciesMem (mergeRecentOut ns l) c ↔ c ∈ l.map (fun o => o.speciesCode) := by
  have h := goodStep_foldl goodStep_processRecentObs l ⟨ns, [], []⟩ (mergeInv_recentInit ns)
  unfold mergeRecentOut
  rw [speciesMem_map_sortStep, h.2.2 c]
  simp [speciesMem, aggKeys]

theorem mergeRecentOut_keys (ns : List String) (l : List Obs) (k : String × String) :
    k ∈ aggKeys (mergeRecentOut ns l) ↔ k ∈ l.map sightingKey := by
  have h := goodStep_foldl goodStep_processRecentObs l ⟨ns, [], []⟩ (mergeInv_recentInit ns)
  unfold mergeRecentOut
  rw [(aggKeys_map_sortStep _).mem_iff, h.2.1 k]
  simp [aggKeys]

/-- CLAIM C3 (counterexample) — the merge fold is not order-independent:
swapping two observations of one species, of which only the second is
reviewed, changes the final rarity of the aggregate. -/
theorem C3_counterexample :
    cexReviewedSecond.Perm cexReviewedFirst ∧
    mergeRecentOut [] cexReviewedSecond ≠ mergeRecentOut [] cexReviewedFirst := by
  constructor
  · decide
  · decide

/-- CLAIM C3 (amended) — the merge fold is order-independent only in the
species-code set and in the retained dedup-key set: permuting the
observation stream preserves which species have an aggregate and which
`(species code, subId)` sightings are retained, while rarity and primary
display fields may depend on the order. -/
theorem C3_amended_order_independence (ns : List String) (l1 l2 : List Obs)
    (hp : l1.Perm l2) (c : String) (k : String × String) :
    (speciesMem (mergeRecentOut ns l1) c ↔ speciesMem (mergeRecentOut ns l2) c) ∧
    (k ∈ aggKeys (mergeRecentOut ns l1) ↔ k ∈ aggKeys (mergeRecentOut ns l2)) := by
  constructor
  · rw [mergeRecentOut_species, mergeRecentOut_species]
    exact (hp.map (fun o => o.speciesCode)).mem_iff
  · rw [mergeRecentOut_keys, mergeRecentOut_keys]
    exact (hp.map sightingKey).mem_iff

theorem appendRecent_obsDt (o : Obs) (a : Agg) :
    (appendRecent o a).obsDt = max a.obsDt o.obsDt := by
  unfold appendRecent
  dsimp only
  split
  · next h => exact (max_eq_right (le_of_lt h)).symm
  · next h => exact (max_eq_left (not_lt.mp h)).symm

theorem maximum_singleton_dt (n : ℕ) : ([n] : List ℕ).maximum = WithBot.some n := by
  simp only [List.maximum_cons, List.maximum_nil, sup_bot_eq]

theorem primaryMax_appendRecent (o : Obs) (a : Agg)
    (h : (a.sightings.map (fun s => s.obsDt)).maximum = WithBot.some a.obsDt) :
    ((appendRecent o a).sightings.map (fun s => s.obsDt)).maximum =
      WithBot.some (appendRecent o a).obsDt := by
  rw [appendRecent_sightings, List.map_append]
  have h1 : (([mkSighting o] : List Sighting).map (fun s => s.obsDt)) = [o.obsDt] := rfl
  rw [h1, List.maximum_concat, h, appendRecent_obsDt]
  norm_cast

theorem primaryMax_processRecentObs (st : BirdsState) (o : Obs)
    (h : PrimaryMax st.allBirds) : PrimaryMax (processRecentObs st o).allBirds := by
  unfold processRecentObs ingest
  by_cases hseen : sightingKey o ∈ st.seenSightings
  · rw [if_pos hseen]
    exact h
  · rw [if_neg hseen]
    cases hfind : findAgg st.allBirds o.speciesCode with
    | none =>
        simp only [hfind]
        intro a ha
        rcases List.mem_append.mp ha with ha' | ha'
        · exact h a ha'
        · rcases List.mem_singleton.mp ha' with rfl
          show (([mkSighting o] : List Sighting).map (fun s => s.obsDt)).maximum = _
          exact maximum_singleton_dt o.obsDt
    | some a0 =>
        simp only [hfind]
        intro a ha
        unfold updateAgg at ha
        rcases List.mem_map.mp ha with ⟨x, hx, rfl⟩
        by_cases hxc : x.speciesCode = o.speciesCode
        · rw [if_pos hxc]
          exact primaryMax_appendRecent o x (h x hx)
        · rw [if_neg hxc]
          exact h x hx

theorem primaryMax_foldRecent :
    ∀ (l : List Obs) (st : BirdsState), PrimaryMax st.allBirds →
      PrimaryMax ((l.foldl processRecentObs st).allBirds) := by
  intro l
  induction l with
  | nil => intro st h; exact h
  | cons o t ih =>
      intro st h
      rw [List.foldl_cons]
      exact ih _ (primaryMax_processRecentObs st o h)

/-- CLAIM C1 (counterexample) — a second notable-mode sighting with a
more recent timestamp is appended without refreshing the primary, so the
primary timestamp falls below a stored sighting's timestamp. -/
theorem C1_counterexample :
    ¬ (∀ a ∈ birdsHandler [some cexNotablePair] [],
        ∀ s ∈ a.sightings, s.obsDt ≤ a.obsDt) := by decide

/-- CLAIM C1 (amended) — for aggregates built exclusively from the
recent-mode branch (no notable-mode observations), the primary timestamp
equals the maximum sighting timestamp and bounds every sighting; the
notable branch's append path leaves the primary untouched and can violate
this. -/
theorem C1_amended_primary_freshness (rR : List (Option (List Obs))) (a : Agg)
    (ha : a ∈ birdsHandler [] rR) (s : Sighting) (hs : s ∈ a.sightings) :
    (a.sightings.map (fun x => x.obsDt)).maximum = WithBot.some a.obsDt ∧
    s.obsDt ≤ a.obsDt := by
  rw [birdsHandler_eq] at ha
  have hP : PrimaryMax (((fulfilledObs rR).foldl processRecentObs initState).allBirds) :=
    primaryMax_foldRecent _ _ (by intro x hx; simp [initState] at hx)
  rcases List.mem_map.mp ha with ⟨a0, ha0, rfl⟩
  have hmax0 := hP a0 ha0
  have hperm : ((sortStep a0).sightings.map (fun x => x.obsDt)).Perm
      (a0.sightings.map (fun x => x.obsDt)) := (sortSightings_perm a0.sightings).map _
  have hmax : ((sortStep a0).sightings.map (fun x => x.obsDt)).maximum =
      WithBot.some (sortStep a0).obsDt := by
    rcases List.maximum_eq_coe_iff.mp hmax0 with ⟨hmem0, hub0⟩
    exact List.maximum_eq_coe_iff.mpr
      ⟨hperm.mem_iff.mpr hmem0, fun b hb => hub0 b (hperm.mem_iff.mp hb)⟩
  refine ⟨hmax, ?_⟩
  have hmem : s.obsDt ∈ (sortStep a0).sightings.map (fun x => x.obsDt) :=
    List.mem_map.mpr ⟨s, hs, rfl⟩
  exact (List.maximum_eq_coe_iff.mp hmax).2 _ hmem

/-- Witness for the amended C1 on a concrete recent-only input. -/
theorem C1_amended_witness :
    ((((birdsHandler [] [some [obsCE "x" "A" 3 false]]).headD dummyAgg).sightings.map
        (fun x => x.obsDt)).maximum =
      WithBot.some ((birdsHandler [] [some [obsCE "x" "A" 3 false]]).headD dummyAgg).obsDt) ∧
    (((birdsHandler [] [some [obsCE "x" "A" 3 false]]).headD dummyAgg).sightings.headD
        dummySighting).obsDt ≤
      ((birdsHandler [] [some [obsCE "x" "A" 3 false]]).headD dummyAgg).obsDt :=
  C1_amended_primary_freshness [some [obsCE "x" "A" 3 false]] _ (by decide) _ (by decide)

theorem newRecentAgg_rarity (ns : List String) (o : Obs) :
    (newRecentAgg ns o).rarity =
      if o.speciesCode ∈ ns ∨ o.obsReviewed = true then "rare" else "common" := rfl

theorem processNotableObs_notableSpecies (st : BirdsState) (o : Obs) :
    (processNotableObs st o).notableSpecies = addSet st.notableSpecies o.speciesCode := by
  unfold processNotableObs
  rw [ingest_notableSpecies]

theorem processRecentObs_notableSpecies (st : BirdsState) (o : Obs) :
    (processRecentObs st o).notableSpecies = st.notableSpecies :=
  ingest_notableSpecies _ _ _ _

theorem notable_fold_notableSpecies :
    ∀ (l : List Obs) (st : BirdsState) (c : String),
      c ∈ (l.foldl processNotableObs st).notableSpecies ↔
        c ∈ st.notableSpecies ∨ c ∈ l.map (fun o => o.speciesCode) := by
  intro l
  induction l with
  | nil => intro st c; simp
  | cons o t ih =>
      intro st c
      rw [List.foldl_cons, ih, processNotableObs_notableSpecies, mem_addSet,
        List.map_cons, List.mem_cons]
      tauto

theorem all_rare_processNotableObs (st : BirdsState) (o : Obs)
    (h : ∀ a ∈ st.allBirds, a.rarity = "rare") :
    ∀ a ∈ (processNotableObs st o).allBirds, a.rarity = "rare" := by
  unfold processNotableObs ingest
  dsimp only
  by_cases hseen : sightingKey o ∈ st.seenSightings
  · rw [if_pos hseen]
    exact h
  · rw [if_neg hseen]
    cases hfind : findAgg st.allBirds o.speciesCode with
    | none =>
        simp only [hfind]
        intro a ha
        rcases List.mem_append.mp ha with ha' | ha'
        · exact h a ha'
        · rcases List.mem_singleton.mp ha' with rfl
          rfl
    | some a0 =>
        simp only [hfind]
        intro a ha
        unfold updateAgg at ha
        rcases List.mem_map.mp ha with ⟨x, hx, rfl⟩
        by_cases hxc : x.speciesCode = o.speciesCode
        · rw [if_pos hxc]
          rfl
        · rw [if_neg hxc]
          exact h x hx

theorem notable_fold_all_rare :
    ∀ (l : List Obs) (st : BirdsState),
      (∀ a ∈ st.allBirds, a.rarity = "rare") →
      ∀ a ∈ (l.foldl processNotableObs st).allBirds, a.rarity = "rare" := by
  intro l
  induction l with
  | nil => intro st h; exact h
  | cons o t ih =>
      intro st h
      rw [List.foldl_cons]
      exact ih _ (all_rare_processNotableObs st o h)

/-- The recent-branch fold preserves the rarity characterization: an
aggregate is rare exactly when its species is in the notable set or the
observation that created the aggregate (the first observation of that
species in the whole fold stream) was reviewed. -/
theorem recent_rarity_fold (nlObs : List Obs) (N : List String) :
    ∀ (rest done : List Obs) (st : BirdsState),
      st.notableSpecies = N →
      MergeInv st →
      (∀ c, speciesMem st.allBirds c ↔
        (c ∈ nlObs.map (fun o => o.speciesCode) ∨ c ∈ done.map (fun o => o.speciesCode))) →
      (∀ a ∈ st.allBirds,
        (a.rarity = "rare" ↔
          (a.speciesCode ∈ N ∨
            ∃ o, creator (nlObs ++ done ++ rest) a.speciesCode = some o ∧
              o.obsReviewed = true))) →
      ∀ a ∈ (rest.foldl processRecentObs st).allBirds,
        a.rarity = "rare" ↔
          (a.speciesCode ∈ N ∨
            ∃ o, creator (nlObs ++ done ++ rest) a.speciesCode = some o ∧
              o.obsReviewed = true) := by
  intro rest
  induction rest with
  | nil =>
      intro done st _ _ _ hrar
      exact hrar
  | cons o rest ih =>
      intro done st hns hinv hsp hrar
      rw [List.foldl_cons]
      have hstream : nlObs ++ done ++ o :: rest = nlObs ++ (done ++ [o]) ++ rest := by
        simp
      have hgs := goodStep_processRecentObs st o hinv
      have h4 : ∀ a ∈ (processRecentObs st o).allBirds,
          a.rarity = "rare" ↔
            (a.speciesCode ∈ N ∨
              ∃ o', creator (nlObs ++ done ++ o :: rest) a.speciesCode = some o' ∧
                o'.obsReviewed = true) := by
        unfold processRecentObs ingest
        by_cases hseen : sightingKey o ∈ st.seenSightings
        · rw [if_pos hseen]
          exact hrar
        · rw [if_neg hseen]
          cases hfind : findAgg st.allBirds o.speciesCode with
          | none =>
              simp only [hfind]
              intro a ha
              rcases List.mem_append.mp ha with ha' | ha'
              · exact hrar a ha'
              · rcases List.mem_singleton.mp ha' with rfl
                have hnsp : ¬ speciesMem st.allBirds o.speciesCode :=
                  findAgg_eq_none_iff.mp hfind
                have hboth : ¬ (o.speciesCode ∈ nlObs.map (fun x => x.speciesCode) ∨
                    o.speciesCode ∈ done.map (fun x => x.speciesCode)) :=
                  fun h => hnsp ((hsp _).mpr h)
                push_neg at hboth
                have hcreator :
                    creator (nlObs ++ done ++ o :: rest) o.speciesCode = some o := by
                  unfold creator
                  rw [List.find?_append, List.find?_append]
                  have hnl : nlObs.find? (fun x => decide (x.speciesCode = o.speciesCode)) =
                      none := by
                    rw [List.find?_eq_none]
                    intro x hx hxc
                    exact hboth.1 (List.mem_map.mpr ⟨x, hx, of_decide_eq_true hxc⟩)
                  have hdn : done.find? (fun x => decide (x.speciesCode = o.speciesCode)) =
                      none := by
                    rw [List.find?_eq_none]
                    intro x hx hxc
                    exact hboth.2 (List.mem_map.mpr ⟨x, hx, of_decide_eq_true hxc⟩)
                  have hhd : (o :: rest).find?
                      (fun x => decide (x.speciesCode = o.speciesCode)) = some o :=
                    List.find?_cons_of_pos _ (by simp)
                  rw [hnl, hdn, hhd]
                  rfl
                show (newRecentAgg st.notableSpecies o).rarity = "rare" ↔ _
                rw [newRecentAgg_rarity, hns]
                have hcode : (newRecentAgg N o).speciesCode = o.speciesCode := rfl
                rw [hcode]
                by_cases hcond : o.speciesCode ∈ N ∨ o.obsReviewed = true
                · rw [if_pos hcond]
                  constructor
                  · intro _
                    rcases hcond with hc | hrev
                    · exact Or.inl hc
                    · exact Or.inr ⟨o, hcreator, hrev⟩
                  · intro _
                    rfl
                · rw [if_neg hcond]
                  constructor
                  · intro h
                    exact absurd h (by decide)
                  · rintro (hc | ⟨o', ho', hrev⟩)
                    · exact absurd (Or.inl hc) hcond
                    · rw [hcreator] at ho'
                      rcases Option.some_inj.mp ho' with rfl
                      exact absurd (Or.inr hrev) hcond
          | some a0 =>
              simp only [hfind]
              intro a ha
              unfold updateAgg at ha
              rcases List.mem_map.mp ha with ⟨x, hx, rfl⟩
              by_cases hxc : x.speciesCode = o.speciesCode
              · rw [if_pos hxc, appendRecent_rarity, appendRecent_speciesCode]
                exact hrar x hx
              · rw [if_neg hxc]
                exact hrar x hx
      rw [hstream]
      refine ih (done ++ [o]) (processRecentObs st o) ?_ hgs.1 ?_ ?_
      · rw [processRecentObs_notableSpecies]
        exact hns
      · intro c
        rw [hgs.2.2 c, hsp c, List.map_append, List.mem_append, List.map_singleton,
          List.mem_singleton]
        tauto
      · rw [← hstream]
        exact h4

/-- CLAIM C2 (counterexample) — a reviewed observation arriving after the
aggregate already exists does not make the rarity rare: with no notable
results, an unreviewed then a reviewed report of one species yields
rarity `common`. -/
theorem C2_counterexample :
    ¬ (∀ a ∈ birdsHandler [] [some cexReviewedSecond],
        (∃ o ∈ cexReviewedSecond,
          o.speciesCode = a.speciesCode ∧ o.obsReviewed = true) →
        a.rarity = "rare") := by decide

/-- CLAIM C2 (amended) — rarity is `rare` iff the species code is in the
notable set or the observation that created the aggregate (the first
observation of that species in the fold stream) carried the reviewed
flag; later reviewed observations do not upgrade an existing aggregate. -/
theorem C2_amended_rarity (nR rR : List (Option (List Obs))) (a : Agg)
    (ha : a ∈ birdsHandler nR rR) :
    a.rarity = "rare" ↔
      (a.speciesCode ∈ notableCodes nR ∨
        ∃ o, creator (fulfilledObs nR ++ fulfilledObs rR) a.speciesCode = some o ∧
          o.obsReviewed = true) := by
  rw [birdsHandler_eq] at ha
  have hfold := goodStep_foldl goodStep_processNotableObs (fulfilledObs nR) initState
    mergeInv_initState
  have hspec1 : ∀ c,
      speciesMem ((fulfilledObs nR).foldl processNotableObs initState).allBirds c ↔
        c ∈ (fulfilledObs nR).map (fun o => o.speciesCode) := by
    intro c
    rw [hfold.2.2 c]
    simp [initState, speciesMem]
  have hN : ∀ c,
      c ∈ ((fulfilledObs nR).foldl processNotableObs initState).notableSpecies ↔
        c ∈ (fulfilledObs nR).map (fun o => o.speciesCode) := by
    intro c
    rw [notable_fold_notableSpecies (fulfilledObs nR) initState c]
    simp [initState]
  have hrare1 := notable_fold_all_rare (fulfilledObs nR) initState
    (by intro x hx; simp [initState] at hx)
  have hkey := recent_rarity_fold (fulfilledObs nR)
    ((fulfilledObs nR).foldl processNotableObs initState).notableSpecies
    (fulfilledObs rR) [] ((fulfilledObs nR).foldl processNotableObs initState) rfl hfold.1
    ?_ ?_
  · rcases List.mem_map.mp ha with ⟨a0, ha0, rfl⟩
    have hchar := hkey a0 ha0
    have hcode : (sortStep a0).speciesCode = a0.speciesCode := rfl
    have hrr : (sortStep a0).rarity = a0.rarity := rfl
    rw [hrr, hcode, hchar]
    constructor
    · rintro (hc | hcr)
      · exact Or.inl ((hN _).mp hc)
      · refine Or.inr ?_
        simpa using hcr
    · rintro (hc | hcr)
      · exact Or.inl ((hN _).mpr hc)
      · refine Or.inr ?_
        simpa using hcr
  · intro c
    rw [hspec1 c]
    simp
  · intro x hx
    have hx1 : x.rarity = "rare" := hrare1 x hx
    have hx2 : x.speciesCode ∈
        ((fulfilledObs nR).foldl processNotableObs initState).notableSpecies :=
      (hN _).mpr ((hspec1 _).mp ⟨x, hx, rfl⟩)
    rw [hx1]
    simp [hx2]

/-- Witness for the amended C2 at a concrete input where a reviewed
observation creates the aggregate. -/
theorem C2_amended_witness :
    ((birdsHandler [] [some [obsCE "x" "A" 1 true]]).headD dummyAgg).rarity = "rare" ↔
      (((birdsHandler [] [some [obsCE "x" "A" 1 true]]).headD dummyAgg).speciesCode ∈
          notableCodes [] ∨
        ∃ o, creator (fulfilledObs [] ++ fulfilledObs [some [obsCE "x" "A" 1 true]])
            ((birdsHandler [] [some [obsCE "x" "A" 1 true]]).headD dummyAgg).speciesCode =
            some o ∧ o.obsReviewed = true) :=
  C2_amended_rarity [] [some [obsCE "x" "A" 1 true]] _ (by decide)

/-- Witness for the amended C3 on a concrete permuted pair. -/
theorem C3_amended_witness :
    (speciesMem (mergeRecentOut [] cexReviewedSecond) "x" ↔
      speciesMem (mergeRecentOut [] cexReviewedFirst) "x") ∧
    (("x", "A") ∈ aggKeys (mergeRecentOut [] cexReviewedSecond) ↔
      ("x", "A") ∈ aggKeys (mergeRecentOut [] cexReviewedFirst)) :=
  C3_amended_order_independence [] cexReviewedSecond cexReviewedFirst (by decide) "x" ("x", "A")

/-- CLAIM C8 — after the merge, every aggregate's sighting list is sorted
by timestamp in non-increasing (most-recent-first) order. -/
theorem C8_sightings_sorted (nR rR : List (Option (List Obs))) (a : Agg)
    (ha : a ∈ birdsHandler nR rR) (i : ℕ)
    (h1 : i < a.sightings.length) (h2 : i + 1 < a.sightings.length) :
    (a.sightings.get ⟨i + 1, h2⟩).obsDt ≤ (a.sightings.get ⟨i, h1⟩).obsDt := by
  rw [birdsHandler_eq] at ha
  rcases List.mem_map.mp ha with ⟨a0, _, rfl⟩
  haveI htr : IsTrans Sighting (fun s t => t.obsDt ≤ s.obsDt) :=
    ⟨fun a b c hab hbc => le_trans hbc hab⟩
  haveI hto : IsTotal Sighting (fun s t => t.obsDt ≤ s.obsDt) :=
    ⟨fun a b => le_total b.obsDt a.obsDt⟩
  have hsorted : List.Sorted (fun s t => t.obsDt ≤ s.obsDt) (sortSightings a0.sightings) :=
    List.sorted_insertionSort _ _
  have hstep := List.pairwise_iff_getElem.mp hsorted i (i + 1) h1 h2 (by omega)
  simpa [List.get_eq_getElem] using hstep

/-- Witness for C8 on a concrete two-sighting aggregate. -/
theorem C8_sightings_sorted_witness :
    (((birdsHandler [some cexNotablePair] []).headD dummyAgg).sightings.get
        ⟨1, by decide⟩).obsDt ≤
      (((birdsHandler [some cexNotablePair] []).headD dummyAgg).sightings.get
        ⟨0, by decide⟩).obsDt :=
  C8_sightings_sorted [some cexNotablePair] [] _ (by decide) 0 (by decide) (by decide)

theorem runQueryResults_replicate_none (f : BirdsState → Obs → BirdsState)
    (st : BirdsState) (n : ℕ) :
    runQueryResults f st (List.replicate n none) = st := by
  induction n with
  | zero => rfl
  | succ n ih => rw [List.replicate_succ, runQueryResults_cons_none, ih]

theorem runQueryResults_replicate_emptySome (f : BirdsState → Obs → BirdsState)
    (st : BirdsState) (n : ℕ) :
    runQueryResults f st (List.replicate n (some ([] : List Obs))) = st := by
  induction n with
  | zero => rfl
  | succ n ih => rw [List.replicate_succ, runQueryResults_cons_some]; exact ih

theorem birdsHandler_allFailed (n m : ℕ) :
    birdsHandler (List.replicate n none) (List.replicate m none) = [] := by
  unfold birdsHandler
  dsimp only
  rw [runQueryResults_replicate_none, runQueryResults_replicate_none]
  rfl

theorem birdsHandler_allEmpty (n m : ℕ) :
    birdsHandler (List.replicate n (some [])) (List.replicate m (some [])) = [] := by
  unfold birdsHandler
  dsimp only
  rw [runQueryResults_replicate_emptySome, runQueryResults_replicate_emptySome]
  rfl

/-- CLAIM C4 (counterexample) — with a non-empty path and every query
failed, the endpoint responds with the bare empty array and nothing else:
the response is byte-identical to the genuinely-empty-data response, so
no `AggregationIncomplete` metadata exists to distinguish them. -/
theorem C4_counterexample :
    apiBirds [(0, 0)] [none] [none] = Except.ok [] ∧
    apiBirds [(0, 0)] [none] [none] = apiBirds [(0, 0)] [some []] [some []] :=
  ⟨rfl, rfl⟩

/-- CLAIM C4 (amended) — when every per-sample-point query fails and the
path is non-empty, the call does not raise or return an error: it returns
the empty aggregate collection; however it carries no failure metadata,
and is indistinguishable from the response for genuinely empty data. -/
theorem C4_amended_empty_response (coords : List (ℚ × ℚ)) (hne : coords ≠ []) (n m : ℕ) :
    apiBirds coords (List.replicate n none) (List.replicate m none) = Except.ok [] ∧
    apiBirds coords (List.replicate n none) (List.replicate m none) =
      apiBirds coords (List.replicate n (some [])) (List.replicate m (some [])) := by
  have hie : coords.isEmpty = false := by
    cases coords with
    | nil => exact absurd rfl hne
    | cons a t => rfl
  unfold apiBirds
  simp only [hie, Bool.false_eq_true, if_false]
  rw [birdsHandler_allFailed, birdsHandler_allEmpty]
  exact ⟨rfl, rfl⟩

/-- Witness for the amended C4 at one sample point. -/
theorem C4_amended_witness :
    apiBirds [((0 : ℚ), (0 : ℚ))] (List.replicate 1 none) (List.replicate 1 none) =
      Except.ok [] ∧
    apiBirds [((0 : ℚ), (0 : ℚ))] (List.replicate 1 none) (List.replicate 1 none) =
      apiBirds [((0 : ℚ), (0 : ℚ))] (List.replicate 1 (some []))
        (List.replicate 1 (some [])) :=
  C4_amended_empty_response [((0 : ℚ), (0 : ℚ))] (by simp) 1 1

theorem sampleGo_spec {α : Type _} (coords : List α) (step : ℕ) :
    ∀ (r i : ℕ), i + r * step < coords.length →
      (sampleGo coords step (r + 1) i).length = r + 1 ∧
      ∀ k, k ≤ r → (sampleGo coords step (r + 1) i)[k]? = coords[i + k * step]? := by
  intro r
  induction r with
  | zero =>
      intro i h
      simp only [Nat.zero_mul, Nat.add_zero] at h
      constructor
      · simp [sampleGo, dif_pos h]
      · intro k hk
        rcases Nat.le_zero.mp hk with rfl
        simp [sampleGo, dif_pos h, List.getElem?_eq_getElem h]
  | succ r ih =>
      intro i h
      have hi : i < coords.length := lt_of_le_of_lt (Nat.le_add_right _ _) h
      have h' : (i + step) + r * step < coords.length := by
        rw [Nat.succ_mul] at h
        omega
      rcases ih (i + step) h' with ⟨ihl, ihg⟩
      constructor
      · simp only [sampleGo, dif_pos hi, List.length_cons, ihl]
      · intro k hk
        cases k with
        | zero =>
            simp [sampleGo, dif_pos hi, List.getElem?_eq_getElem hi]
        | succ k =>
            have harith : i + (k + 1) * step = (i + step) + k * step := by
              rw [Nat.succ_mul]
              omega
            simp only [sampleGo, dif_pos hi, List.getElem?_cons_succ]
            rw [ihg k (by omega), harith]

/-- CLAIM C6 — the sampler returns the path unchanged when it has at most
`N` coordinates; otherwise it returns exactly `N` coordinates, the
`k`-th being the input coordinate at index `k * floor(len / N)`. -/
theorem C6_sampler {α : Type _} (coords : List α) (N : ℕ) (hN : 1 ≤ N) :
    (coords.length ≤ N → sampleCoordinates coords N = coords) ∧
    (N < coords.length →
      (sampleCoordinates coords N).length = N ∧
      ∀ k, k < N →
        (sampleCoordinates coords N)[k]? = coords[k * (coords.length / N)]?) := by
  constructor
  · intro h
    unfold sampleCoordinates
    rw [if_pos h]
  · intro h
    obtain ⟨r, rfl⟩ : ∃ r, N = r + 1 := ⟨N - 1, by omega⟩
    have hstep : 1 ≤ coords.length / (r + 1) :=
      (Nat.one_le_div_iff (by omega)).mpr (le_of_lt h)
    have hmul : coords.length / (r + 1) * (r + 1) ≤ coords.length :=
      Nat.div_mul_le_self _ _
    have hbound : 0 + r * (coords.length / (r + 1)) < coords.length := by
      have h1 : (r + 1) * (coords.length / (r + 1)) =
          r * (coords.length / (r + 1)) + coords.length / (r + 1) := by
        rw [Nat.succ_mul]
      have h2 : (r + 1) * (coords.length / (r + 1)) =
          coords.length / (r + 1) * (r + 1) := Nat.mul_comm _ _
      omega
    rcases sampleGo_spec coords (coords.length / (r + 1)) r 0 hbound with ⟨hl, hg⟩
    unfold sampleCoordinates
    rw [if_neg (by omega)]
    refine ⟨hl, ?_⟩
    intro k hk
    have := hg k (by omega)
    simpa using this

/-- Witness for C6 on a concrete three-point path sampled to two points. -/
theorem C6_sampler_witness :
    (([0, 1, 2] : List ℕ).length ≤ 2 → sampleCoordinates [0, 1, 2] 2 = [0, 1, 2]) ∧
    (2 < ([0, 1, 2] : List ℕ).length →
      (sampleCoordinates [0, 1, 2] 2).length = 2 ∧
      ∀ k, k < 2 →
        (sampleCoordinates ([0, 1, 2] : List ℕ) 2)[k]? =
          ([0, 1, 2] : List ℕ)[k * (([0, 1, 2] : List ℕ).length / 2)]?) :=
  C6_sampler [0, 1, 2] 2 (by decide)

theorem minUpd_some (m d : ℚ) : minUpd (some m) d = some (min m d) := by
  show (if d < m then some d else some m) = some (min m d)
  rcases lt_or_ge d m with h | h
  · rw [if_pos h]
    congr 1
    exact (min_eq_right (le_of_lt h)).symm
  · rw [if_neg (not_lt.mpr h)]
    congr 1
    exact (min_eq_left h).symm

theorem foldl_minUpd_some (l : List ℚ) :
    ∀ m, l.foldl minUpd (some m) = some (l.foldl min m) := by
  induction l with
  | nil => intro m; rfl
  | cons d t ih =>
      intro m
      rw [List.foldl_cons, List.foldl_cons, minUpd_some, ih]

theorem foldl_minUpd_none (l : List ℚ) : l.foldl minUpd none = l.min? := by
  cases l with
  | nil => rfl
  | cons d t =>
      rw [List.foldl_cons]
      show t.foldl minUpd (some d) = _
      rw [foldl_minUpd_some]
      rfl

/-- The double running-minimum loop of `getMinDistanceToRoute` computes
the minimum of the candidate-distance list the specification describes. -/
theorem getMinDistanceToRoute_eq_min (hav : ℚ → ℚ → ℚ → ℚ → ℚ) (lat lng : ℚ)
    (routeCoords : List (ℚ × ℚ)) :
    getMinDistanceToRoute hav lat lng routeCoords =
      (routeDistances hav lat lng routeCoords).min? := by
  unfold getMinDistanceToRoute routeDistances
  dsimp only
  rw [← List.foldl_map (fun pq : (ℚ × ℚ) × (ℚ × ℚ) =>
        pointToSegmentDistance hav lat lng pq.1.1 pq.1.2 pq.2.1 pq.2.2) minUpd,
    ← List.foldl_map (fun p : ℚ × ℚ => hav lat lng p.1 p.2) minUpd,
    ← List.foldl_append, foldl_minUpd_none]

/-- CLAIM C7 — the proximity filter keeps an aggregate iff the minimum
over the per-segment distances (planar projection clamped to the segment,
metric distance to the clamped projection) and the per-vertex metric
distances is at most the threshold. -/
theorem C7_proximity_filter (hav : ℚ → ℚ → ℚ → ℚ → ℚ) (thr : ℚ)
    (routeCoords : List (ℚ × ℚ)) (hne : routeCoords ≠ []) (birds : List Agg) (b : Agg) :
    b ∈ distanceFilterStep hav thr routeCoords birds ↔
      (b ∈ birds ∧
        ∃ m, (routeDistances hav b.lat b.lng routeCoords).min? = some m ∧ m ≤ thr) := by
  have hkeep : keepBird hav thr routeCoords b = true ↔
      ∃ m, (routeDistances hav b.lat b.lng routeCoords).min? = some m ∧ m ≤ thr := by
    unfold keepBird
    rw [getMinDistanceToRoute_eq_min]
    cases hmin : (routeDistances hav b.lat b.lng routeCoords).min? with
    | none => simp
    | some d => simp
  unfold distanceFilterStep
  rw [if_pos (List.length_pos.mpr hne), List.mem_filter, hkeep]

/-- Witness for C7 with the trivial metric on a one-point route. -/
theorem C7_proximity_filter_witness :
    dummyAgg ∈ distanceFilterStep hav0 1 [(0, 0)] [dummyAgg] ↔
      (dummyAgg ∈ [dummyAgg] ∧
        ∃ m, (routeDistances hav0 dummyAgg.lat dummyAgg.lng [(0, 0)]).min? = some m ∧
          m ≤ 1) :=
  C7_proximity_filter hav0 1 [(0, 0)] (by simp) [dummyAgg] dummyAgg

/-- CLAIM C9 (counterexample) — the handler's query schedule is not fully
concurrent: with two sample points, an await event (joint notable
settlement, then each recent response) precedes later issue events. -/
theorem C9_counterexample : ¬ fullyConcurrent (birdsQueryTrace 2) := by
  unfold fullyConcurrent
  decide

/-- CLAIM C9 (amended) — the notable queries are all issued before their
joint await; the recent queries are not concurrent: they start only after
every notable query settles, and recent query `i` settles before recent
query `j` is issued whenever `i < j`. -/
theorem C9_amended_schedule (n i j : ℕ) (hi : i < n) (hj : j < n) (hij : i < j) :
    [QueryEvent.issueNotable i, QueryEvent.settleNotableAll].Sublist (birdsQueryTrace n) ∧
    [QueryEvent.settleNotableAll, QueryEvent.issueRecent i].Sublist (birdsQueryTrace n) ∧
    [QueryEvent.settleRecent i, QueryEvent.issueRecent j].Sublist (birdsQueryTrace n) := by
  unfold birdsQueryTrace
  refine ⟨?_, ?_, ?_⟩
  · refine List.Sublist.trans ?_ (List.sublist_append_left _ _)
    show ([QueryEvent.issueNotable i] ++ [QueryEvent.settleNotableAll]).Sublist _
    refine List.Sublist.append ?_ (List.Sublist.refl [QueryEvent.settleNotableAll])
    exact List.singleton_sublist.mpr (List.mem_map.mpr ⟨i, List.mem_range.mpr hi, rfl⟩)
  · show ([QueryEvent.settleNotableAll] ++ [QueryEvent.issueRecent i]).Sublist _
    refine List.Sublist.append ?_ ?_
    · exact List.sublist_append_right _ _
    · exact List.singleton_sublist.mpr
        (List.mem_flatMap.mpr ⟨i, List.mem_range.mpr hi, by simp⟩)
  · refine List.Sublist.trans ?_ (List.sublist_append_right _ _)
    have hn : n = (i + 1) + (n - (i + 1)) := by omega
    rw [hn, List.range_add, List.flatMap_append]
    show ([QueryEvent.settleRecent i] ++ [QueryEvent.issueRecent j]).Sublist _
    refine List.Sublist.append ?_ ?_
    · exact List.singleton_sublist.mpr
        (List.mem_flatMap.mpr ⟨i, List.mem_range.mpr (by omega), by simp⟩)
    · refine List.singleton_sublist.mpr (List.mem_flatMap.mpr ⟨j, ?_, by simp⟩)
      exact List.mem_map.mpr ⟨j - (i + 1), List.mem_range.mpr (by omega), by omega⟩

/-- Witness for the amended C9 at two sample points. -/
theorem C9_amended_witness :
    [QueryEvent.issueNotable 0, QueryEvent.settleNotableAll].Sublist (birdsQueryTrace 2) ∧
    [QueryEvent.settleNotableAll, QueryEvent.issueRecent 0].Sublist (birdsQueryTrace 2) ∧
    [QueryEvent.settleRecent 0, QueryEvent.issueRecent 1].Sublist (birdsQueryTrace 2) :=
  C9_amended_schedule 2 0 1 (by decide) (by decide) (by decide)

/-- CLAIM C10 — a raw observation whose `howMany` is absent, null or `0`
contributes the quantity `1` everywhere it is stored: in the sighting
record, in a freshly created aggregate of either branch, and in the
primary fields when the observation replaces them. -/
theorem C10_quantity_default (o : Obs) (ns : List String) (a : Agg)
    (h : o.howMany = none ∨ o.howMany = some 0) (ha : a.obsDt < o.obsDt) :
    (mkSighting o).howMany = 1 ∧ (newNotableAgg o).howMany = 1 ∧
    (newRecentAgg ns o).howMany = 1 ∧ (appendRecent o a).howMany = 1 := by
  have hd : defaultCount o.howMany = 1 := by
    rcases h with h | h <;> simp [defaultCount, h]
  refine ⟨hd, hd, hd, ?_⟩
  unfold appendRecent
  dsimp only
  rw [if_pos ha]
  exact hd

/-- Witness for C10 at a concrete count-free observation. -/
theorem C10_quantity_default_witness :
    (mkSighting (obsCE "x" "A" 1 false)).howMany = 1 ∧
    (newNotableAgg (obsCE "x" "A" 1 false)).howMany = 1 ∧
    (newRecentAgg [] (obsCE "x" "A" 1 false)).howMany = 1 ∧
    (appendRecent (obsCE "x" "A" 1 false) dummyAgg).howMany = 1 :=
  C10_quantity_default (obsCE "x" "A" 1 false) [] dummyAgg (Or.inl rfl) (by decide)

end BirdRide
